import Mathlib

/-!
# blinky (cs140e, `0-blinky/phase3/blinky.c`)

A shallow embedding of the bare-metal blinker and the properties of its
configuration step, its busy-wait delay and its endless set/clear loop.

* C `unsigned int` values are natural numbers; the two multiplications and the
  increment of the delay loop, which can overflow, are reduced modulo `2 ^ 32`.
  A bitwise OR of two 32-bit words is again a 32-bit word (`or_assign_lt_U32`),
  so `|=` needs no reduction.
* The three `volatile unsigned *` registers are words of a simulated memory
  `Mem`, addressed by the pointer values of the source.
* `asm volatile("nop")` is counted: the machine carries the number of `nop`s
  executed so far.
* `main` never returns. `main_run` is the state after the configuration step
  and `n` iterations of the `while` loop; `step` is the same program as a
  small-step machine over program points.
-/

namespace Blinky

/-! ## Constants and registers (lines 1-7) -/

/-- Number of values of an `unsigned int` of the target (32 bits). -/
def U32 : Nat := 2 ^ 32

/-- Line 1: `#define GPIO_BASE (0x3F000000 + 0x200000)`. -/
def GPIO_BASE : Nat := 0x3F000000 + 0x200000

/-- Line 2: `#define true 1`. -/
def c_true : Nat := 1

/-- Line 3: `#define false 0`. -/
def c_false : Nat := 0

/-- Line 5: the address held by the pointer `GPIO_FSEL1`. -/
def GPIO_FSEL1 : Nat := GPIO_BASE + 0x04

/-- Line 6: the address held by the pointer `GPIO_SET0`. -/
def GPIO_SET0 : Nat := GPIO_BASE + 0x1C

/-- Line 7: the address held by the pointer `GPIO_CLR0`. -/
def GPIO_CLR0 : Nat := GPIO_BASE + 0x28

/-- Simulated register file: one word per address. -/
abbrev Mem := Nat → Nat

/-- The register file in which every word is zero. -/
def zeroMem : Mem := fun _ => 0

/-- Plain store `*a = v`. -/
def store (m : Mem) (a v : Nat) : Mem := fun x => if x = a then v else m x

/-- Read-modify-write `*a |= k`: load the word at `a`, OR it with `k`, store it back. -/
def or_assign (m : Mem) (a k : Nat) : Mem := store m a (m a ||| k)

/-! ## The delay (lines 9-17) -/

/-- The loop of `spin_sleep_us` (lines 10-12) with its bound `us * 6` already
evaluated to `bound`: `i` is the loop counter, `nops` the number of `nop`s
executed so far. Each unit of fuel pays for one evaluation of the loop test. -/
def spin_loop (bound : Nat) : Nat → Nat → Nat → Option Nat
  | 0, _, _ => none
  | fuel + 1, i, nops =>
    if i < bound then spin_loop bound fuel ((i + 1) % U32) (nops + 1) else some nops

/-- Lines 9-13: `spin_sleep_us(us)`; the result is the number of loop iterations
(`nop`s) performed. -/
def spin_sleep_us (fuel us : Nat) : Option Nat :=
  spin_loop ((us * 6) % U32) fuel 0 0

/-- Lines 15-17: `spin_sleep_ms(ms)`. -/
def spin_sleep_ms (fuel ms : Nat) : Option Nat :=
  spin_sleep_us fuel ((ms * 1000) % U32)

/-! ## `main`, as the prefixes of its endless run (lines 19-30) -/

/-- Register file and the count of delay-loop iterations executed so far. -/
structure Machine where
  mem : Mem
  nops : Nat

/-- Line 21: `*GPIO_FSEL1 |= 0x01 << 18;`. -/
def step1 (s : Machine) : Machine :=
  { s with mem := or_assign s.mem GPIO_FSEL1 (0x01 <<< 18) }

/-- Line 25: `*GPIO_SET0 |= 0x0f;`. -/
def drive_high (s : Machine) : Machine :=
  { s with mem := or_assign s.mem GPIO_SET0 0x0f }

/-- Line 27: `*GPIO_CLR0 |= 0x0f;`. -/
def drive_low (s : Machine) : Machine :=
  { s with mem := or_assign s.mem GPIO_CLR0 0x0f }

/-- Lines 26 and 28: a call `spin_sleep_ms(ms)` from `main`. -/
def sleep_ms (fuel ms : Nat) (s : Machine) : Option Machine :=
  (spin_sleep_ms fuel ms).map fun n => { s with nops := s.nops + n }

/-- Lines 25-28: one execution of the body of the `while` loop. -/
def loop_body (fuel : Nat) (s : Machine) : Option Machine :=
  (sleep_ms fuel 250 (drive_high s)).bind fun s2 => sleep_ms fuel 250 (drive_low s2)

/-- Lines 24-29: `n` iterations of `while(true)`. -/
def loop_iters (fuel : Nat) : Nat → Machine → Option Machine
  | 0, s => some s
  | n + 1, s =>
    if c_true ≠ 0 then (loop_body fuel s).bind (loop_iters fuel n) else some s

/-- Lines 19-29: the configuration step followed by `n` loop iterations, from
the register file `m`. -/
def main_run (fuel n : Nat) (m : Mem) : Option Machine :=
  loop_iters fuel n (step1 { mem := m, nops := 0 })

/-- Register file after lines 25 and 27: the two writes of one loop iteration. -/
def loop_mem (m : Mem) : Mem := or_assign (or_assign m GPIO_SET0 0x0f) GPIO_CLR0 0x0f

/-- Bits 18-20 of a function-select word: the 3-bit field of pin 16 in FSEL1. -/
def fsel_field (v : Nat) : Nat := (v >>> 18) % 8

/-! ## `main` as a small-step machine -/

/-- Level last driven on the output. -/
inductive Pin
  | HIGH
  | LOW
  deriving DecidableEq, Repr

/-- Program points of `main`. Inside a delay the point carries the loop
counter `i` of `spin_sleep_us`. -/
inductive Loc
  | config
  | loop_head
  | set_pins
  | sleep_high (i : Nat)
  | clear_pins
  | sleep_low (i : Nat)
  | returned
  deriving DecidableEq, Repr

/-- State of the small-step machine. `pin` is a history variable: `some HIGH`
once `GPIO_SET0` was the last of the set and clear registers written,
`some LOW` once `GPIO_CLR0` was, `none` before either was written. -/
structure State where
  pc : Loc
  mem : Mem
  nops : Nat
  pin : Option Pin

/-- Bound of the delay loop for the call `spin_sleep_ms(ms)`: `ms * 1000` is
passed as `us` and the loop compares against `us * 6`. -/
def delay_bound (ms : Nat) : Nat := (((ms * 1000) % U32) * 6) % U32

/-- One step of `main`; `none` only at `returned`, where `main` would return. -/
def step (s : State) : Option State :=
  match s.pc with
  | Loc.config =>
    some { s with pc := Loc.loop_head, mem := or_assign s.mem GPIO_FSEL1 (0x01 <<< 18) }
  | Loc.loop_head =>
    if c_true ≠ 0 then some { s with pc := Loc.set_pins } else some { s with pc := Loc.returned }
  | Loc.set_pins =>
    some { s with pc := Loc.sleep_high 0, mem := or_assign s.mem GPIO_SET0 0x0f,
                  pin := some Pin.HIGH }
  | Loc.sleep_high i =>
    if i < delay_bound 250 then
      some { s with pc := Loc.sleep_high ((i + 1) % U32), nops := s.nops + 1 }
    else some { s with pc := Loc.clear_pins }
  | Loc.clear_pins =>
    some { s with pc := Loc.sleep_low 0, mem := or_assign s.mem GPIO_CLR0 0x0f,
                  pin := some Pin.LOW }
  | Loc.sleep_low i =>
    if i < delay_bound 250 then
      some { s with pc := Loc.sleep_low ((i + 1) % U32), nops := s.nops + 1 }
    else some { s with pc := Loc.loop_head }
  | Loc.returned => none

/-- Run `n` steps. -/
def stepN : Nat → State → Option State
  | 0, s => some s
  | n + 1, s => (step s).bind (stepN n)

/-- Entry of `main` on the register file `m`. -/
def init (m : Mem) : State :=
  { pc := Loc.config, mem := m, nops := 0, pin := none }

/-- States that `main` reaches from some register file. -/
def Reachable (s : State) : Prop := ∃ m n, stepN n (init m) = some s

/-- What the program point says about the level last driven: nothing was
driven before the first pass through line 25, the output is HIGH from line 25
until line 27 has run and LOW from line 27 until line 25 runs again; inside a
delay the loop counter has not passed the bound. -/
def PinAt (s : State) : Prop :=
  match s.pc with
  | Loc.config => s.pin = none
  | Loc.loop_head => s.pin = none ∨ s.pin = some Pin.LOW
  | Loc.set_pins => s.pin = none ∨ s.pin = some Pin.LOW
  | Loc.sleep_high i => s.pin = some Pin.HIGH ∧ i ≤ delay_bound 250
  | Loc.clear_pins => s.pin = some Pin.HIGH
  | Loc.sleep_low i => s.pin = some Pin.LOW ∧ i ≤ delay_bound 250
  | Loc.returned => False

/-! ## Memory lemmas -/

theorem store_same (m : Mem) (a v : Nat) : store m a v a = v := by
  simp [store]

theorem store_other (m : Mem) (a v x : Nat) (h : x ≠ a) : store m a v x = m x := by
  simp [store, h]

theorem or_assign_same (m : Mem) (a k : Nat) : or_assign m a k a = m a ||| k := by
  simp [or_assign, store]

theorem or_assign_other (m : Mem) (a k x : Nat) (h : x ≠ a) : or_assign m a k x = m x := by
  simp [or_assign, store, h]

theorem or_assign_lt_U32 (m : Mem) (a k : Nat) (hm : m a < U32) (hk : k < U32) :
    or_assign m a k a < U32 := by
  rw [or_assign_same]
  exact Nat.or_lt_two_pow hm hk

theorem or_assign_idem (m : Mem) (a k : Nat) : or_assign (or_assign m a k) a k = or_assign m a k := by
  funext x
  by_cases h : x = a
  · subst h
    simp [or_assign, store, Nat.or_assoc]
  · simp [or_assign, store, h]

theorem FSEL1_ne_SET0 : GPIO_FSEL1 ≠ GPIO_SET0 := by decide
theorem FSEL1_ne_CLR0 : GPIO_FSEL1 ≠ GPIO_CLR0 := by decide
theorem SET0_ne_CLR0 : GPIO_SET0 ≠ GPIO_CLR0 := by decide

/-! ## The delay loop -/

theorem spin_loop_some (bound : Nat) (hb : bound < U32) :
    ∀ fuel i nops, i ≤ bound → bound - i < fuel →
      spin_loop bound fuel i nops = some (nops + (bound - i)) := by
  intro fuel
  induction fuel with
  | zero => intro i nops _ h; omega
  | succ fuel ih =>
    intro i nops hi hf
    unfold spin_loop
    by_cases hlt : i < bound
    · have hmod : (i + 1) % U32 = i + 1 := Nat.mod_eq_of_lt (by omega)
      rw [if_pos hlt, hmod, ih (i + 1) (nops + 1) (by omega) (by omega)]
      congr 1
      omega
    · rw [if_neg hlt]
      congr 1
      omega

theorem spin_loop_none (bound : Nat) (hb : bound < U32) :
    ∀ fuel i nops, i ≤ bound → fuel ≤ bound - i →
      spin_loop bound fuel i nops = none := by
  intro fuel
  induction fuel with
  | zero => intro i nops _ _; rfl
  | succ fuel ih =>
    intro i nops hi hf
    unfold spin_loop
    have hlt : i < bound := by omega
    have hmod : (i + 1) % U32 = i + 1 := Nat.mod_eq_of_lt (by omega)
    rw [if_pos hlt, hmod]
    exact ih (i + 1) (nops + 1) (by omega) (by omega)

theorem spin_sleep_us_some (us fuel : Nat) (hf : (us * 6) % U32 < fuel) :
    spin_sleep_us fuel us = some ((us * 6) % U32) := by
  have hb : (us * 6) % U32 < U32 := Nat.mod_lt _ (by decide)
  unfold spin_sleep_us
  rw [spin_loop_some _ hb fuel 0 0 (Nat.zero_le _) (by omega)]
  simp

theorem spin_sleep_us_none (us fuel : Nat) (hf : fuel ≤ (us * 6) % U32) :
    spin_sleep_us fuel us = none := by
  have hb : (us * 6) % U32 < U32 := Nat.mod_lt _ (by decide)
  unfold spin_sleep_us
  exact spin_loop_none _ hb fuel 0 0 (Nat.zero_le _) (by omega)

theorem spin_sleep_ms_some (ms fuel : Nat) (hf : delay_bound ms < fuel) :
    spin_sleep_ms fuel ms = some (delay_bound ms) := by
  unfold spin_sleep_ms
  exact spin_sleep_us_some _ fuel hf

theorem delay_bound_250 : delay_bound 250 = 1500000 := by decide

/-! ## Bit-level facts about the OR masks -/

theorem or_two_pow_18_testBit (v i : Nat) :
    (v ||| (0x01 <<< 18)).testBit i = (v.testBit i || decide (i = 18)) := by
  rw [Nat.testBit_or, Nat.one_shiftLeft, Nat.testBit_two_pow]
  by_cases h : i = 18
  · subst h; simp
  · have h2 : ¬ (18 = i) := fun e => h e.symm
    simp [h, h2]

theorem fsel_field_eq_one_iff (v : Nat) :
    fsel_field v = 1 ↔ v.testBit 18 = true ∧ v.testBit 19 = false ∧ v.testBit 20 = false := by
  simp only [fsel_field, Nat.shiftRight_eq_div_pow, Nat.testBit_to_div_mod]
  norm_num
  omega

theorem fsel_field_eq_zero_iff (v : Nat) :
    fsel_field v = 0 ↔ v.testBit 18 = false ∧ v.testBit 19 = false ∧ v.testBit 20 = false := by
  simp only [fsel_field, Nat.shiftRight_eq_div_pow, Nat.testBit_to_div_mod]
  norm_num
  omega

theorem or_two_pow_18_eq_add (v : Nat) (h : v.testBit 18 = false) :
    v ||| (0x01 <<< 18) = v + 0x40000 := by
  have hb : v % 2 ^ 18 < 2 ^ 18 := Nat.mod_lt _ (by norm_num)
  have hbit : v / 2 ^ 18 % 2 = 0 := by
    have h18 := h
    rw [Nat.testBit_to_div_mod] at h18
    simp at h18
    omega
  have hv : v = 2 ^ 19 * (v / 2 ^ 19) + v % 2 ^ 18 := by
    norm_num at hbit ⊢
    omega
  have e1 : 2 ^ 19 * (v / 2 ^ 19) + v % 2 ^ 18 = 2 ^ 19 * (v / 2 ^ 19) ||| v % 2 ^ 18 :=
    Nat.mul_add_lt_is_or (by omega) _
  have e2 : 2 ^ 19 * (v / 2 ^ 19) + 2 ^ 18 = 2 ^ 19 * (v / 2 ^ 19) ||| 2 ^ 18 :=
    Nat.mul_add_lt_is_or (by norm_num) _
  have e3 : 2 ^ 18 * (2 * (v / 2 ^ 19) + 1) + v % 2 ^ 18
      = 2 ^ 18 * (2 * (v / 2 ^ 19) + 1) ||| v % 2 ^ 18 :=
    Nat.mul_add_lt_is_or hb _
  have e4 : 2 ^ 19 * (v / 2 ^ 19) + 2 ^ 18 = 2 ^ 18 * (2 * (v / 2 ^ 19) + 1) := by ring
  rw [Nat.one_shiftLeft]
  calc v ||| 2 ^ 18 = (2 ^ 19 * (v / 2 ^ 19) ||| v % 2 ^ 18) ||| 2 ^ 18 := by rw [← e1, ← hv]
    _ = (2 ^ 19 * (v / 2 ^ 19) ||| 2 ^ 18) ||| v % 2 ^ 18 := by
        rw [Nat.or_assoc, Nat.or_comm (v % 2 ^ 18), ← Nat.or_assoc]
    _ = 2 ^ 18 * (2 * (v / 2 ^ 19) + 1) + v % 2 ^ 18 := by rw [← e2, e4, ← e3]
    _ = v + 0x40000 := by
        norm_num at hbit ⊢
        omega

theorem or_mask_eq_mask_iff (v : Nat) : v ||| 0x0f = 0x0f ↔ v < 16 := by
  constructor
  · intro h
    apply @Nat.lt_pow_two_of_testBit 4 v
    intro i hi
    have hor : (v ||| 0x0f).testBit i = Nat.testBit 0x0f i := by rw [h]
    rw [Nat.testBit_or] at hor
    have h15 : Nat.testBit 0x0f i = false :=
      Nat.testBit_lt_two_pow (lt_of_lt_of_le (by norm_num) (Nat.pow_le_pow_right (by norm_num) hi))
    rw [h15] at hor
    simpa using hor
  · intro h
    interval_cases v <;> rfl

theorem or_mask_testBit_16 (v : Nat) : (v ||| 0x0f).testBit 16 = v.testBit 16 := by
  rw [Nat.testBit_or]
  have h15 : Nat.testBit 0x0f 16 = false := by decide
  rw [h15, Bool.or_false]

/-! ## The loop body and its iterations -/

theorem loop_mem_FSEL1 (m : Mem) : loop_mem m GPIO_FSEL1 = m GPIO_FSEL1 := by
  unfold loop_mem
  rw [or_assign_other _ _ _ _ FSEL1_ne_CLR0, or_assign_other _ _ _ _ FSEL1_ne_SET0]

theorem loop_mem_SET0 (m : Mem) : loop_mem m GPIO_SET0 = m GPIO_SET0 ||| 0x0f := by
  unfold loop_mem
  rw [or_assign_other _ _ _ _ SET0_ne_CLR0, or_assign_same]

theorem loop_mem_CLR0 (m : Mem) : loop_mem m GPIO_CLR0 = m GPIO_CLR0 ||| 0x0f := by
  unfold loop_mem
  rw [or_assign_same, or_assign_other _ _ _ _ (Ne.symm SET0_ne_CLR0)]

theorem loop_mem_other (m : Mem) (a : Nat) (hs : a ≠ GPIO_SET0) (hc : a ≠ GPIO_CLR0) :
    loop_mem m a = m a := by
  unfold loop_mem
  rw [or_assign_other _ _ _ _ hc, or_assign_other _ _ _ _ hs]

theorem loop_mem_idem (m : Mem) : loop_mem (loop_mem m) = loop_mem m := by
  funext a
  by_cases hs : a = GPIO_SET0
  · subst hs
    rw [loop_mem_SET0, loop_mem_SET0, Nat.or_assoc, Nat.or_self]
  · by_cases hc : a = GPIO_CLR0
    · subst hc
      rw [loop_mem_CLR0, loop_mem_CLR0, Nat.or_assoc, Nat.or_self]
    · rw [loop_mem_other _ _ hs hc]

theorem sleep_ms_250 (fuel : Nat) (hf : 1500000 < fuel) (s : Machine) :
    sleep_ms fuel 250 s = some { s with nops := s.nops + 1500000 } := by
  unfold sleep_ms
  rw [spin_sleep_ms_some 250 fuel (by rw [delay_bound_250]; exact hf), delay_bound_250]
  rfl

theorem loop_body_eq (fuel : Nat) (hf : 1500000 < fuel) (s : Machine) :
    loop_body fuel s = some { mem := loop_mem s.mem, nops := s.nops + 3000000 } := by
  unfold loop_body
  rw [sleep_ms_250 fuel hf]
  simp only [Option.some_bind]
  rw [sleep_ms_250 fuel hf]
  simp only [drive_low, drive_high, loop_mem, Nat.add_assoc]

theorem loop_iters_succ (fuel : Nat) (hf : 1500000 < fuel) :
    ∀ n (s : Machine), loop_iters fuel (n + 1) s
      = some { mem := loop_mem s.mem, nops := s.nops + (n + 1) * 3000000 } := by
  intro n
  induction n with
  | zero =>
    intro s
    simp [loop_iters, c_true, loop_body_eq fuel hf]
  | succ n ih =>
    intro s
    rw [loop_iters, if_pos (by decide), loop_body_eq fuel hf, Option.some_bind, ih]
    simp only [loop_mem_idem]
    congr 2
    omega

theorem main_run_succ (fuel : Nat) (hf : 1500000 < fuel) (n : Nat) (m : Mem) :
    main_run fuel (n + 1) m
      = some { mem := loop_mem (or_assign m GPIO_FSEL1 (0x01 <<< 18)),
               nops := (n + 1) * 3000000 } := by
  unfold main_run
  rw [loop_iters_succ fuel hf]
  simp [step1]

theorem main_run_zero (fuel : Nat) (m : Mem) :
    main_run fuel 0 m = some { mem := or_assign m GPIO_FSEL1 (0x01 <<< 18), nops := 0 } := by
  rfl

/-! ## The configuration step -/

theorem step1_FSEL1 (s : Machine) :
    (step1 s).mem GPIO_FSEL1 = s.mem GPIO_FSEL1 ||| (0x01 <<< 18) :=
  or_assign_same s.mem GPIO_FSEL1 (0x01 <<< 18)

theorem step1_other (s : Machine) (a : Nat) (ha : a ≠ GPIO_FSEL1) :
    (step1 s).mem a = s.mem a :=
  or_assign_other s.mem GPIO_FSEL1 (0x01 <<< 18) a ha

/-- C1, as stated, fails: from a function-select word with bit 19 set
(`0x80000`, a 32-bit value) line 21 leaves the field of pin 16 at binary 011,
so it is not true that every initial value ends with the field at 001. -/
theorem config_field_not_always_001 :
    (0x80000 < U32 ∧
      fsel_field ((step1 { mem := store zeroMem GPIO_FSEL1 0x80000, nops := 0 }).mem GPIO_FSEL1)
        = 3) ∧
    ¬ (∀ s : Machine, s.mem GPIO_FSEL1 < U32 →
        fsel_field ((step1 s).mem GPIO_FSEL1) = 1 ∧
        ∀ i, i < 18 ∨ 20 < i →
          ((step1 s).mem GPIO_FSEL1).testBit i = (s.mem GPIO_FSEL1).testBit i) := by
  refine ⟨⟨by decide, by decide⟩, ?_⟩
  intro h
  have h1 := (h { mem := store zeroMem GPIO_FSEL1 0x80000, nops := 0 } (by decide)).1
  revert h1
  decide

/-- C1, amended: for every initial value of the function-select register,
line 21 sets bit 18, leaves every other bit of the register (bits 19 and 20
included) and every other word unchanged, and so the field of pin 16 reads 001
afterwards exactly when bits 19 and 20 were zero before. -/
theorem config_sets_bit_18 (s : Machine) :
    ((step1 s).mem GPIO_FSEL1).testBit 18 = true ∧
    (∀ i, i ≠ 18 → ((step1 s).mem GPIO_FSEL1).testBit i = (s.mem GPIO_FSEL1).testBit i) ∧
    (fsel_field ((step1 s).mem GPIO_FSEL1) = 1 ↔
      (s.mem GPIO_FSEL1).testBit 19 = false ∧ (s.mem GPIO_FSEL1).testBit 20 = false) ∧
    (∀ a, a ≠ GPIO_FSEL1 → (step1 s).mem a = s.mem a) := by
  have hv := step1_FSEL1 s
  refine ⟨?_, ?_, ?_, ?_⟩
  · rw [hv, or_two_pow_18_testBit]; simp
  · intro i hi
    rw [hv, or_two_pow_18_testBit]; simp [hi]
  · rw [fsel_field_eq_one_iff, hv]
    simp only [or_two_pow_18_testBit]
    simp
  · intro a ha
    exact step1_other s a ha

/-- C5: the configuration step is idempotent. Executing line 21 twice leaves
the same state as executing it once, and the register then holds its initial
value OR `0x40000`. -/
theorem config_idempotent (s : Machine) :
    step1 (step1 s) = step1 s ∧
    (step1 (step1 s)).mem GPIO_FSEL1 = (step1 s).mem GPIO_FSEL1 ∧
    (step1 s).mem GPIO_FSEL1 = s.mem GPIO_FSEL1 ||| 0x40000 := by
  have h : step1 (step1 s) = step1 s := by
    simp only [step1, or_assign_idem]
  exact ⟨h, by rw [h], step1_FSEL1 s⟩

/-- C8: when bits 18-20 of the function-select register are zero, line 21
yields `v + 0x40000`, the field reads 001 and every other bit is that of `v`;
and for every `v`, each bit set in `v` stays set and only bit 18 can differ. -/
theorem config_from_reset_field (s : Machine) (h0 : fsel_field (s.mem GPIO_FSEL1) = 0) :
    ((step1 s).mem GPIO_FSEL1 = s.mem GPIO_FSEL1 + 0x40000 ∧
      fsel_field ((step1 s).mem GPIO_FSEL1) = 1 ∧
      ∀ i, i < 18 ∨ 20 < i →
        ((step1 s).mem GPIO_FSEL1).testBit i = (s.mem GPIO_FSEL1).testBit i) ∧
    (∀ t : Machine,
      (∀ i, (t.mem GPIO_FSEL1).testBit i = true → ((step1 t).mem GPIO_FSEL1).testBit i = true) ∧
      ∀ i, i ≠ 18 → ((step1 t).mem GPIO_FSEL1).testBit i = (t.mem GPIO_FSEL1).testBit i) := by
  have hv := step1_FSEL1
  obtain ⟨b18, b19, b20⟩ := (fsel_field_eq_zero_iff _).1 h0
  refine ⟨⟨?_, ?_, ?_⟩, ?_⟩
  · rw [hv, or_two_pow_18_eq_add _ b18]
  · rw [fsel_field_eq_one_iff, hv]
    simp only [or_two_pow_18_testBit]
    simp [b19, b20]
  · intro i hi
    have hne : i ≠ 18 := by omega
    rw [hv, or_two_pow_18_testBit]; simp [hne]
  · intro t
    refine ⟨?_, ?_⟩
    · intro i hi
      rw [hv, or_two_pow_18_testBit, hi]; rfl
    · intro i hi
      rw [hv, or_two_pow_18_testBit]; simp [hi]

/-- C8, witness: the all-zero register file has the field at zero, and line 21
takes its function-select register from `0` to `0x40000`. -/
theorem config_from_reset_field_witness :
    fsel_field (zeroMem GPIO_FSEL1) = 0 ∧
    (step1 { mem := zeroMem, nops := 0 }).mem GPIO_FSEL1 = zeroMem GPIO_FSEL1 + 0x40000 :=
  ⟨by decide, (config_from_reset_field { mem := zeroMem, nops := 0 } (by decide)).1.1⟩

/-! ## The delay -/

/-- C2, as stated, fails: `us = 715827883` is a positive 32-bit value, `us * 6`
wraps to 2, and the loop of `spin_sleep_us` performs 2 iterations; no amount of
fuel makes it perform `6 * us`. -/
theorem spin_sleep_us_wraps :
    (0 < 715827883 ∧ 715827883 < U32 ∧ spin_sleep_us 3 715827883 = some 2) ∧
    ∀ fuel, spin_sleep_us fuel 715827883 ≠ some (6 * 715827883) := by
  refine ⟨⟨by decide, by decide, by decide⟩, ?_⟩
  intro fuel
  have hb : (715827883 * 6) % U32 = 2 := by decide
  by_cases hf : 2 < fuel
  · rw [spin_sleep_us_some 715827883 fuel (by rw [hb]; exact hf), hb]
    decide
  · rw [spin_sleep_us_none 715827883 fuel (by rw [hb]; omega)]
    exact fun h => Option.noConfusion h

/-- C2, amended: `spin_sleep_us(us)` performs exactly `6 * us` loop iterations
whenever `6 * us` fits in 32 bits (none at all for `us = 0`), given fuel for
the `6 * us + 1` evaluations of the loop test. -/
theorem spin_sleep_us_exact (us fuel : Nat) (hus : 6 * us < U32) (hf : 6 * us < fuel) :
    spin_sleep_us fuel us = some (6 * us) ∧
    (us = 0 → spin_sleep_us fuel us = some 0) := by
  have hb : (us * 6) % U32 = 6 * us := by
    rw [Nat.mul_comm]
    exact Nat.mod_eq_of_lt hus
  have h := spin_sleep_us_some us fuel (by rw [hb]; exact hf)
  rw [hb] at h
  refine ⟨h, ?_⟩
  intro h0
  rw [h, h0]

/-- C2, amended, witness: `spin_sleep_us(1)` performs 6 iterations. -/
theorem spin_sleep_us_exact_witness :
    6 * 1 < U32 ∧ 6 * 1 < 7 ∧ spin_sleep_us 7 1 = some (6 * 1) :=
  ⟨by decide, by decide, (spin_sleep_us_exact 1 7 (by decide) (by decide)).1⟩

/-- C9: for every `us` the loop of `spin_sleep_us(us)` terminates, after
exactly `(6 * us) mod 2^32` iterations (it takes that many `nop`s and one more
loop test, no fewer); `spin_sleep_ms(ms)` performs
`((ms * 1000 mod 2^32) * 6) mod 2^32` iterations, which is `6000 * ms` when
`6000 * ms < 2^32`, and 1500000 for `ms = 250`. -/
theorem spin_sleep_terminates (us ms fuel : Nat) (hf : U32 ≤ fuel) :
    spin_sleep_us fuel us = some ((6 * us) % 2 ^ 32) ∧
    (∀ f, (6 * us) % 2 ^ 32 < f → spin_sleep_us f us = some ((6 * us) % 2 ^ 32)) ∧
    (∀ f, f ≤ (6 * us) % 2 ^ 32 → spin_sleep_us f us = none) ∧
    spin_sleep_ms fuel ms = some (((ms * 1000 % 2 ^ 32) * 6) % 2 ^ 32) ∧
    (6000 * ms < 2 ^ 32 → spin_sleep_ms fuel ms = some (6000 * ms)) ∧
    spin_sleep_ms fuel 250 = some 1500000 := by
  have hU : U32 = 2 ^ 32 := rfl
  have hc : (us * 6) % U32 = (6 * us) % 2 ^ 32 := by rw [Nat.mul_comm, hU]
  have hlt : ∀ x : Nat, x % U32 < fuel := fun x =>
    lt_of_lt_of_le (Nat.mod_lt _ (by decide)) hf
  have hms : spin_sleep_ms fuel ms = some (((ms * 1000 % 2 ^ 32) * 6) % 2 ^ 32) := by
    rw [spin_sleep_ms_some ms fuel (hlt _)]
    rfl
  refine ⟨?_, ?_, ?_, hms, ?_, ?_⟩
  · rw [spin_sleep_us_some us fuel (hlt _), hc]
  · intro f hf2
    rw [spin_sleep_us_some us f (by rw [hc]; exact hf2), hc]
  · intro f hf2
    exact spin_sleep_us_none us f (by rw [hc]; exact hf2)
  · intro h6
    rw [hms]
    congr 1
    omega
  · rw [spin_sleep_ms_some 250 fuel (hlt _), delay_bound_250]

/-- C9, witness: with `2^32` units of fuel `spin_sleep_us(715827883)` stops
after `(6 * 715827883) mod 2^32 = 2` iterations. -/
theorem spin_sleep_terminates_witness :
    U32 ≤ 2 ^ 32 ∧ spin_sleep_us (2 ^ 32) 715827883 = some ((6 * 715827883) % 2 ^ 32) ∧
    (6 * 715827883) % 2 ^ 32 = 2 :=
  ⟨by decide, (spin_sleep_terminates 715827883 250 (2 ^ 32) (by decide)).1, by decide⟩

/-! ## The set and clear writes -/

theorem drive_pair_mem (s : Machine) : (drive_low (drive_high s)).mem = loop_mem s.mem := rfl

/-- C3, as stated, fails: when the set register of the simulated register file
starts at `0x10`, lines 25 and 27 leave `0x1F` in it, not the mask `0x0F`. -/
theorem drive_pair_keeps_old_bits :
    (drive_low (drive_high { mem := store zeroMem GPIO_SET0 0x10, nops := 0 })).mem GPIO_SET0
        = 0x1F ∧
    ¬ (∀ s : Machine, (drive_low (drive_high s)).mem GPIO_SET0 = 0x0F ∧
        (drive_low (drive_high s)).mem GPIO_CLR0 = 0x0F) := by
  refine ⟨by decide, ?_⟩
  intro h
  have h1 := (h { mem := store zeroMem GPIO_SET0 0x10, nops := 0 }).1
  revert h1
  decide

/-- C3, amended: after line 25 followed by line 27 the set register holds its
initial value OR `0x0F` and the clear register holds its initial value OR
`0x0F`; each holds exactly `0x0F` if and only if its initial value had no bit
set outside bits 0-3, as in the all-zero register file. -/
theorem drive_pair_ors_mask (s : Machine) :
    (drive_low (drive_high s)).mem GPIO_SET0 = s.mem GPIO_SET0 ||| 0x0F ∧
    (drive_low (drive_high s)).mem GPIO_CLR0 = s.mem GPIO_CLR0 ||| 0x0F ∧
    ((drive_low (drive_high s)).mem GPIO_SET0 = 0x0F ↔ s.mem GPIO_SET0 < 16) ∧
    ((drive_low (drive_high s)).mem GPIO_CLR0 = 0x0F ↔ s.mem GPIO_CLR0 < 16) := by
  rw [drive_pair_mem, loop_mem_SET0, loop_mem_CLR0]
  exact ⟨rfl, rfl, or_mask_eq_mask_iff _, or_mask_eq_mask_iff _⟩

/-- C7 fails on the code: the mask of lines 25 and 27 is `0x0f`, whose bit 16
is clear. From the all-zero register file the two writes leave `0x0f` in the
set and clear registers, and from any register file they leave bit 16 of both
as it was, while line 21 configured the field of pin 16. -/
theorem drive_mask_misses_pin_16 :
    Nat.testBit 0x0f 16 = false ∧
    (drive_high { mem := zeroMem, nops := 0 }).mem GPIO_SET0 = 0x0f ∧
    (drive_low { mem := zeroMem, nops := 0 }).mem GPIO_CLR0 = 0x0f ∧
    (∀ s : Machine,
      ((drive_high s).mem GPIO_SET0).testBit 16 = (s.mem GPIO_SET0).testBit 16 ∧
      ((drive_low s).mem GPIO_CLR0).testBit 16 = (s.mem GPIO_CLR0).testBit 16) := by
  refine ⟨by decide, by decide, by decide, ?_⟩
  intro s
  have hh : (drive_high s).mem GPIO_SET0 = s.mem GPIO_SET0 ||| 0x0f :=
    or_assign_same s.mem GPIO_SET0 0x0f
  have hl : (drive_low s).mem GPIO_CLR0 = s.mem GPIO_CLR0 ||| 0x0f :=
    or_assign_same s.mem GPIO_CLR0 0x0f
  rw [hh, hl]
  exact ⟨or_mask_testBit_16 _, or_mask_testBit_16 _⟩

/-! ## Configuration followed by loop iterations -/

/-- C4: from the all-zero register file, the configuration step and one full
loop iteration end with bits 18-20 of FSEL1 at 001, the set register at `0x0F`,
the clear register at `0x0F`, and `2 * 250000 * 6 = 3000000` delay-loop
iterations executed. -/
theorem one_iteration_from_zero (fuel : Nat) (hf : 1500000 < fuel) :
    ∃ s, main_run fuel 1 zeroMem = some s ∧
      fsel_field (s.mem GPIO_FSEL1) = 1 ∧
      s.mem GPIO_SET0 = 0x0F ∧
      s.mem GPIO_CLR0 = 0x0F ∧
      s.nops = 2 * 250000 * 6 ∧
      s.nops = 3000000 := by
  refine ⟨_, main_run_succ fuel hf 0 zeroMem, ?_, ?_, ?_, ?_, ?_⟩
  · decide
  · decide
  · decide
  · rfl
  · rfl

/-- C4, witness: 1500001 units of fuel are enough for each delay. -/
theorem one_iteration_from_zero_witness :
    1500000 < 1500001 ∧
    ∃ s, main_run 1500001 1 zeroMem = some s ∧
      fsel_field (s.mem GPIO_FSEL1) = 1 ∧
      s.mem GPIO_SET0 = 0x0F ∧
      s.mem GPIO_CLR0 = 0x0F ∧
      s.nops = 2 * 250000 * 6 ∧
      s.nops = 3000000 :=
  ⟨by decide, one_iteration_from_zero 1500001 (by decide)⟩

/-- C10: on a register file with initial words `f`, `s`, `c` at the three
register addresses, for every `n ≥ 1` the state after the configuration step
and `n` loop iterations has function-select `f OR 0x40000`, set `s OR 0x0F`,
clear `c OR 0x0F` and every other address as it was; the function-select
register holds `f OR 0x40000` after any number of iterations, and the register
file after `n` iterations is the one after a single iteration. -/
theorem registers_after_iterations (m : Mem) (fuel n : Nat) (hn : 1 ≤ n)
    (hf : 1500000 < fuel) :
    GPIO_FSEL1 ≠ GPIO_SET0 ∧ GPIO_FSEL1 ≠ GPIO_CLR0 ∧ GPIO_SET0 ≠ GPIO_CLR0 ∧
    ∃ s, main_run fuel n m = some s ∧
      s.mem GPIO_FSEL1 = m GPIO_FSEL1 ||| 0x40000 ∧
      s.mem GPIO_SET0 = m GPIO_SET0 ||| 0x0F ∧
      s.mem GPIO_CLR0 = m GPIO_CLR0 ||| 0x0F ∧
      (∀ a, a ≠ GPIO_FSEL1 → a ≠ GPIO_SET0 → a ≠ GPIO_CLR0 → s.mem a = m a) ∧
      s.nops = n * 3000000 ∧
      (∀ k, ∃ t, main_run fuel k m = some t ∧ t.mem GPIO_FSEL1 = m GPIO_FSEL1 ||| 0x40000) ∧
      ∃ s1, main_run fuel 1 m = some s1 ∧ s.mem = s1.mem := by
  refine ⟨FSEL1_ne_SET0, FSEL1_ne_CLR0, SET0_ne_CLR0, ?_⟩
  obtain ⟨j, rfl⟩ : ∃ j, n = j + 1 := ⟨n - 1, by omega⟩
  have hF : ∀ k, ∃ t, main_run fuel k m = some t ∧
      t.mem GPIO_FSEL1 = m GPIO_FSEL1 ||| 0x40000 := by
    intro k
    cases k with
    | zero => exact ⟨_, main_run_zero fuel m, or_assign_same m GPIO_FSEL1 (0x01 <<< 18)⟩
    | succ k =>
      refine ⟨_, main_run_succ fuel hf k m, ?_⟩
      show loop_mem _ GPIO_FSEL1 = _
      rw [loop_mem_FSEL1]
      exact or_assign_same m GPIO_FSEL1 (0x01 <<< 18)
  refine ⟨_, main_run_succ fuel hf j m, ?_, ?_, ?_, ?_, rfl, hF, ?_⟩
  · show loop_mem _ GPIO_FSEL1 = _
    rw [loop_mem_FSEL1]
    exact or_assign_same m GPIO_FSEL1 (0x01 <<< 18)
  · show loop_mem _ GPIO_SET0 = _
    rw [loop_mem_SET0, or_assign_other _ _ _ _ (Ne.symm FSEL1_ne_SET0)]
  · show loop_mem _ GPIO_CLR0 = _
    rw [loop_mem_CLR0, or_assign_other _ _ _ _ (Ne.symm FSEL1_ne_CLR0)]
  · intro a h1 h2 h3
    show loop_mem _ a = _
    rw [loop_mem_other _ _ h2 h3, or_assign_other _ _ _ _ h1]
  · exact ⟨_, main_run_succ fuel hf 0 m, rfl⟩

/-- C10, witness: three iterations from the all-zero register file. -/
theorem registers_after_iterations_witness :
    1 ≤ 3 ∧ 1500000 < 1500001 ∧
    ∃ s, main_run 1500001 3 zeroMem = some s ∧
      s.mem GPIO_FSEL1 = zeroMem GPIO_FSEL1 ||| 0x40000 ∧
      s.mem GPIO_SET0 = zeroMem GPIO_SET0 ||| 0x0F ∧
      s.mem GPIO_CLR0 = zeroMem GPIO_CLR0 ||| 0x0F ∧
      (∀ a, a ≠ GPIO_FSEL1 → a ≠ GPIO_SET0 → a ≠ GPIO_CLR0 → s.mem a = zeroMem a) ∧
      s.nops = 3 * 3000000 ∧
      (∀ k, ∃ t, main_run 1500001 k zeroMem = some t ∧
        t.mem GPIO_FSEL1 = zeroMem GPIO_FSEL1 ||| 0x40000) ∧
      ∃ s1, main_run 1500001 1 zeroMem = some s1 ∧ s.mem = s1.mem :=
  ⟨by decide, by decide,
    (registers_after_iterations zeroMem 1500001 3 (by decide) (by decide)).2.2.2⟩

/-! ## The small-step machine -/

theorem stepN_add (a b : Nat) : ∀ s : State, stepN (a + b) s = (stepN a s).bind (stepN b) := by
  induction a with
  | zero => intro s; simp [stepN]
  | succ a ih =>
    intro s
    rw [Nat.add_right_comm, stepN, stepN]
    cases h : step s with
    | none => rfl
    | some t => simp only [Option.some_bind, ih]

theorem sleep_high_run (m : Mem) (p : Option Pin) :
    ∀ k i n, i + k ≤ 1500000 →
      stepN k { pc := Loc.sleep_high i, mem := m, nops := n, pin := p }
        = some { pc := Loc.sleep_high (i + k), mem := m, nops := n + k, pin := p } := by
  intro k
  induction k with
  | zero => intro i n _; rfl
  | succ k ih =>
    intro i n h
    have hlt : i < delay_bound 250 := by rw [delay_bound_250]; omega
    have hmod : (i + 1) % U32 = i + 1 := Nat.mod_eq_of_lt (by unfold U32; omega)
    rw [stepN]
    simp only [step, if_pos hlt, hmod, Option.some_bind]
    rw [ih (i + 1) (n + 1) (by omega)]
    congr 2
    · congr 1; omega
    · omega

theorem sleep_low_run (m : Mem) (p : Option Pin) :
    ∀ k i n, i + k ≤ 1500000 →
      stepN k { pc := Loc.sleep_low i, mem := m, nops := n, pin := p }
        = some { pc := Loc.sleep_low (i + k), mem := m, nops := n + k, pin := p } := by
  intro k
  induction k with
  | zero => intro i n _; rfl
  | succ k ih =>
    intro i n h
    have hlt : i < delay_bound 250 := by rw [delay_bound_250]; omega
    have hmod : (i + 1) % U32 = i + 1 := Nat.mod_eq_of_lt (by unfold U32; omega)
    rw [stepN]
    simp only [step, if_pos hlt, hmod, Option.some_bind]
    rw [ih (i + 1) (n + 1) (by omega)]
    congr 2
    · congr 1; omega
    · omega

theorem sleep_high_exit (m : Mem) (n : Nat) (p : Option Pin) :
    step { pc := Loc.sleep_high 1500000, mem := m, nops := n, pin := p }
      = some { pc := Loc.clear_pins, mem := m, nops := n, pin := p } := by
  have hge : ¬ (1500000 < delay_bound 250) := by rw [delay_bound_250]; omega
  simp only [step, if_neg hge]

theorem sleep_low_exit (m : Mem) (n : Nat) (p : Option Pin) :
    step { pc := Loc.sleep_low 1500000, mem := m, nops := n, pin := p }
      = some { pc := Loc.loop_head, mem := m, nops := n, pin := p } := by
  have hge : ¬ (1500000 < delay_bound 250) := by rw [delay_bound_250]; omega
  simp only [step, if_neg hge]

theorem high_phase (m : Mem) (n : Nat) (p : Option Pin) :
    stepN 1500002 { pc := Loc.sleep_high 0, mem := m, nops := n, pin := p }
      = some { pc := Loc.sleep_low 0, mem := or_assign m GPIO_CLR0 0x0f,
               nops := n + 1500000, pin := some Pin.LOW } := by
  rw [show (1500002 : Nat) = 1500000 + 2 from rfl, stepN_add,
    sleep_high_run m p 1500000 0 n (by omega)]
  simp only [Option.some_bind, Nat.zero_add, stepN, sleep_high_exit]
  rfl

theorem low_phase (m : Mem) (n : Nat) (p : Option Pin) :
    stepN 1500003 { pc := Loc.sleep_low 0, mem := m, nops := n, pin := p }
      = some { pc := Loc.sleep_high 0, mem := or_assign m GPIO_SET0 0x0f,
               nops := n + 1500000, pin := some Pin.HIGH } := by
  rw [show (1500003 : Nat) = 1500000 + 3 from rfl, stepN_add,
    sleep_low_run m p 1500000 0 n (by omega)]
  simp only [Option.some_bind, Nat.zero_add, stepN, sleep_low_exit]
  rfl

theorem high_phase_holds (m : Mem) (n k : Nat) (hk : k ≤ 1500001) :
    ∃ t, stepN k { pc := Loc.sleep_high 0, mem := m, nops := n, pin := some Pin.HIGH } = some t ∧
      t.pin = some Pin.HIGH ∧ t.mem = m := by
  by_cases h : k ≤ 1500000
  · exact ⟨_, sleep_high_run m _ k 0 n (by omega), rfl, rfl⟩
  · have hk2 : k = 1500000 + 1 := by omega
    subst hk2
    rw [stepN_add, sleep_high_run m _ 1500000 0 n (by omega)]
    simp only [Option.some_bind, Nat.zero_add, stepN, sleep_high_exit]
    exact ⟨_, rfl, rfl, rfl⟩

theorem low_phase_holds (m : Mem) (n k : Nat) (hk : k ≤ 1500002) :
    ∃ t, stepN k { pc := Loc.sleep_low 0, mem := m, nops := n, pin := some Pin.LOW } = some t ∧
      t.pin = some Pin.LOW ∧ t.mem = m := by
  by_cases h : k ≤ 1500000
  · exact ⟨_, sleep_low_run m _ k 0 n (by omega), rfl, rfl⟩
  · by_cases h1 : k = 1500000 + 1
    · subst h1
      rw [stepN_add, sleep_low_run m _ 1500000 0 n (by omega)]
      simp only [Option.some_bind, Nat.zero_add, stepN, sleep_low_exit]
      exact ⟨_, rfl, rfl, rfl⟩
    · have hk2 : k = 1500000 + 2 := by omega
      subst hk2
      rw [stepN_add, sleep_low_run m _ 1500000 0 n (by omega)]
      simp only [Option.some_bind, Nat.zero_add, stepN, sleep_low_exit]
      exact ⟨_, rfl, rfl, rfl⟩

theorem PinAt_init (m : Mem) : PinAt (init m) := rfl

theorem PinAt_step (s t : State) (hs : PinAt s) (h : step s = some t) : PinAt t := by
  obtain ⟨pc, m, n, p⟩ := s
  cases pc with
  | config =>
    simp only [step, Option.some.injEq] at h
    subst h
    exact Or.inl hs
  | loop_head =>
    simp only [step, c_true, ne_eq, one_ne_zero, not_false_eq_true, if_true,
      Option.some.injEq] at h
    subst h
    exact hs
  | set_pins =>
    simp only [step, Option.some.injEq] at h
    subst h
    exact ⟨rfl, Nat.zero_le _⟩
  | sleep_high i =>
    by_cases hlt : i < delay_bound 250
    · simp only [step, if_pos hlt, Option.some.injEq] at h
      subst h
      refine ⟨hs.1, ?_⟩
      exact le_trans (Nat.mod_le _ _) hlt
    · simp only [step, if_neg hlt, Option.some.injEq] at h
      subst h
      exact hs.1
  | clear_pins =>
    simp only [step, Option.some.injEq] at h
    subst h
    exact ⟨rfl, Nat.zero_le _⟩
  | sleep_low i =>
    by_cases hlt : i < delay_bound 250
    · simp only [step, if_pos hlt, Option.some.injEq] at h
      subst h
      refine ⟨hs.1, ?_⟩
      exact le_trans (Nat.mod_le _ _) hlt
    · simp only [step, if_neg hlt, Option.some.injEq] at h
      subst h
      exact Or.inr hs.1
  | returned => exact hs.elim

theorem PinAt_stepN : ∀ (n : Nat) (s t : State), PinAt s → stepN n s = some t → PinAt t := by
  intro n
  induction n with
  | zero =>
    intro s t hs h
    simp only [stepN, Option.some.injEq] at h
    subst h
    exact hs
  | succ n ih =>
    intro s t hs h
    rw [stepN] at h
    cases hst : step s with
    | none => rw [hst] at h; exact Option.noConfusion h
    | some u =>
      rw [hst, Option.some_bind] at h
      exact ih u t (PinAt_step s u hs hst) h

theorem Reachable_PinAt (s : State) (h : Reachable s) : PinAt s := by
  obtain ⟨m, n, hn⟩ := h
  exact PinAt_stepN n (init m) s (PinAt_init m) hn

theorem PinAt_progress (s : State) (hs : PinAt s) : s.pc ≠ Loc.returned ∧ ∃ t, step s = some t := by
  obtain ⟨pc, m, n, p⟩ := s
  cases pc with
  | config => exact ⟨fun h => Loc.noConfusion h, _, rfl⟩
  | loop_head => exact ⟨fun h => Loc.noConfusion h, _, rfl⟩
  | set_pins => exact ⟨fun h => Loc.noConfusion h, _, rfl⟩
  | sleep_high i =>
    refine ⟨fun h => Loc.noConfusion h, ?_⟩
    by_cases hlt : i < delay_bound 250
    · simp only [step, if_pos hlt]
      exact ⟨_, rfl⟩
    · simp only [step, if_neg hlt]
      exact ⟨_, rfl⟩
  | clear_pins => exact ⟨fun h => Loc.noConfusion h, _, rfl⟩
  | sleep_low i =>
    refine ⟨fun h => Loc.noConfusion h, ?_⟩
    by_cases hlt : i < delay_bound 250
    · simp only [step, if_pos hlt]
      exact ⟨_, rfl⟩
    · simp only [step, if_neg hlt]
      exact ⟨_, rfl⟩
  | returned => exact hs.elim

theorem high_rest (m : Mem) (n i : Nat) (p : Option Pin) (hi : i ≤ 1500000) :
    stepN ((1500000 - i) + 2) { pc := Loc.sleep_high i, mem := m, nops := n, pin := p }
      = some { pc := Loc.sleep_low 0, mem := or_assign m GPIO_CLR0 0x0f,
               nops := n + (1500000 - i), pin := some Pin.LOW } := by
  rw [stepN_add, sleep_high_run m p (1500000 - i) i n (by omega),
    show i + (1500000 - i) = 1500000 by omega]
  simp only [Option.some_bind, stepN, sleep_high_exit]
  rfl

theorem low_rest (m : Mem) (n i : Nat) (p : Option Pin) (hi : i ≤ 1500000) :
    stepN ((1500000 - i) + 3) { pc := Loc.sleep_low i, mem := m, nops := n, pin := p }
      = some { pc := Loc.sleep_high 0, mem := or_assign m GPIO_SET0 0x0f,
               nops := n + (1500000 - i), pin := some Pin.HIGH } := by
  rw [stepN_add, sleep_low_run m p (1500000 - i) i n (by omega),
    show i + (1500000 - i) = 1500000 by omega]
  simp only [Option.some_bind, stepN, sleep_low_exit]
  rfl

theorem high_step (s t : State) (hs : PinAt s) (hp : s.pin = some Pin.HIGH)
    (h : step s = some t) :
    (t.pin = some Pin.HIGH ∧ t.mem = s.mem) ∨
    (s.pc = Loc.clear_pins ∧ t.pin = some Pin.LOW ∧ t.mem = or_assign s.mem GPIO_CLR0 0x0f) := by
  obtain ⟨pc, m, n, p⟩ := s
  simp only at hp
  subst hp
  cases pc with
  | config => exact Option.noConfusion hs
  | loop_head => rcases hs with hs | hs <;> cases hs
  | set_pins => rcases hs with hs | hs <;> cases hs
  | sleep_high i =>
    by_cases hlt : i < delay_bound 250
    · simp only [step, if_pos hlt, Option.some.injEq] at h
      subst h
      exact Or.inl ⟨rfl, rfl⟩
    · simp only [step, if_neg hlt, Option.some.injEq] at h
      subst h
      exact Or.inl ⟨rfl, rfl⟩
  | clear_pins =>
    simp only [step, Option.some.injEq] at h
    subst h
    exact Or.inr ⟨rfl, rfl, rfl⟩
  | sleep_low i => cases hs.1
  | returned => exact hs.elim

theorem low_step (s t : State) (hs : PinAt s) (hp : s.pin = some Pin.LOW)
    (h : step s = some t) :
    (t.pin = some Pin.LOW ∧ t.mem = s.mem) ∨
    (s.pc = Loc.set_pins ∧ t.pin = some Pin.HIGH ∧ t.mem = or_assign s.mem GPIO_SET0 0x0f) := by
  obtain ⟨pc, m, n, p⟩ := s
  simp only at hp
  subst hp
  cases pc with
  | config => exact Option.noConfusion hs
  | loop_head =>
    simp only [step, c_true, ne_eq, one_ne_zero, not_false_eq_true, if_true,
      Option.some.injEq] at h
    subst h
    exact Or.inl ⟨rfl, rfl⟩
  | set_pins =>
    simp only [step, Option.some.injEq] at h
    subst h
    exact Or.inr ⟨rfl, rfl, rfl⟩
  | sleep_high i => cases hs.1
  | clear_pins => cases hs
  | sleep_low i =>
    by_cases hlt : i < delay_bound 250
    · simp only [step, if_pos hlt, Option.some.injEq] at h
      subst h
      exact Or.inl ⟨rfl, rfl⟩
    · simp only [step, if_neg hlt, Option.some.injEq] at h
      subst h
      exact Or.inl ⟨rfl, rfl⟩
  | returned => exact hs.elim

theorem high_reaches_low (s : State) (hs : PinAt s) (hp : s.pin = some Pin.HIGH) :
    ∃ k u, k ≤ 1500002 ∧ stepN k s = some u ∧ u.pin = some Pin.LOW ∧
      u.mem = or_assign s.mem GPIO_CLR0 0x0f := by
  obtain ⟨pc, m, n, p⟩ := s
  simp only at hp
  subst hp
  cases pc with
  | config => exact Option.noConfusion hs
  | loop_head => rcases hs with hs | hs <;> cases hs
  | set_pins => rcases hs with hs | hs <;> cases hs
  | sleep_high i =>
    have hi : i ≤ 1500000 := by
      have h2 := hs.2
      rw [delay_bound_250] at h2
      exact h2
    exact ⟨_, _, by omega, high_rest m n i _ hi, rfl, rfl⟩
  | clear_pins => exact ⟨1, _, by omega, rfl, rfl, rfl⟩
  | sleep_low i => cases hs.1
  | returned => exact hs.elim

theorem low_reaches_high (s : State) (hs : PinAt s) (hp : s.pin = some Pin.LOW) :
    ∃ k u, k ≤ 1500003 ∧ stepN k s = some u ∧ u.pin = some Pin.HIGH ∧
      u.mem = or_assign s.mem GPIO_SET0 0x0f := by
  obtain ⟨pc, m, n, p⟩ := s
  simp only at hp
  subst hp
  cases pc with
  | config => exact Option.noConfusion hs
  | loop_head => exact ⟨2, _, by omega, rfl, rfl, rfl⟩
  | set_pins => exact ⟨1, _, by omega, rfl, rfl, rfl⟩
  | sleep_high i => cases hs.1
  | clear_pins => cases hs
  | sleep_low i =>
    have hi : i ≤ 1500000 := by
      have h2 := hs.2
      rw [delay_bound_250] at h2
      exact h2
    exact ⟨_, _, by omega, low_rest m n i _ hi, rfl, rfl⟩
  | returned => exact hs.elim

theorem loop_iteration_steps (m : Mem) (n : Nat) (p : Option Pin) :
    stepN 3000005 { pc := Loc.loop_head, mem := m, nops := n, pin := p }
      = some { pc := Loc.loop_head, mem := loop_mem m, nops := n + 3000000,
               pin := some Pin.LOW } := by
  have h2 : stepN 2 { pc := Loc.loop_head, mem := m, nops := n, pin := p }
      = some { pc := Loc.sleep_high 0, mem := or_assign m GPIO_SET0 0x0f, nops := n,
               pin := some Pin.HIGH } := rfl
  rw [show (3000005 : Nat) = 2 + (1500002 + (1500000 + 1)) from rfl, stepN_add, h2,
    Option.some_bind, stepN_add, high_phase, Option.some_bind, stepN_add,
    sleep_low_run _ _ 1500000 0 _ (by omega)]
  simp only [Option.some_bind, Nat.zero_add, stepN, sleep_low_exit, loop_mem, Nat.add_assoc]

theorem stepN_iterations (m : Mem) :
    ∀ n, stepN (1 + (n + 1) * 3000005) (init m)
      = some { pc := Loc.loop_head, mem := loop_mem (or_assign m GPIO_FSEL1 (0x01 <<< 18)),
               nops := (n + 1) * 3000000, pin := some Pin.LOW } := by
  intro n
  induction n with
  | zero =>
    have h1 : stepN 1 (init m)
        = some { pc := Loc.loop_head, mem := or_assign m GPIO_FSEL1 (0x01 <<< 18), nops := 0,
                 pin := none } := rfl
    rw [show 1 + (0 + 1) * 3000005 = 1 + 3000005 from rfl, stepN_add, h1, Option.some_bind,
      loop_iteration_steps]
  | succ n ih =>
    have e : (n + 1) * 3000000 + 3000000 = (n + 1 + 1) * 3000000 := by ring
    rw [show 1 + (n + 1 + 1) * 3000005 = (1 + (n + 1) * 3000005) + 3000005 by ring,
      stepN_add, ih, Option.some_bind, loop_iteration_steps, loop_mem_idem, e]

/-- The small-step machine and `main_run` agree: after the configuration step
and `n + 1` passes through the loop body the machine is back at the loop head
with the register file and the iteration count of `main_run`. -/
theorem stepN_agrees_main_run (fuel : Nat) (hf : 1500000 < fuel) (m : Mem) (n : Nat) :
    ∃ s, main_run fuel (n + 1) m = some s ∧
      stepN (1 + (n + 1) * 3000005) (init m)
        = some { pc := Loc.loop_head, mem := s.mem, nops := s.nops, pin := some Pin.LOW } :=
  ⟨_, main_run_succ fuel hf n m, stepN_iterations m n⟩

/-- C6: `main` as a machine over the pin states HIGH and LOW.
(1) Before the first write to the set or clear register no level was driven,
and the first of the two registers written after the configuration step is the
set register, so the loop enters HIGH.
(2) A step of a reachable HIGH state stays HIGH without touching the registers
or goes to LOW by the write to the clear register; (3) a step of a reachable LOW
state stays LOW or goes to HIGH by the write to the set register.
(4) From the entry of HIGH the level is held through the 1500000 iterations of
`spin_sleep_ms(250)` and the next state change is LOW; (5) from the entry of LOW
the level is held through the same 1500000 iterations and the next state
change is HIGH.
(6), (7) Every reachable HIGH state reaches LOW and every reachable LOW state
reaches HIGH.
(8) No reachable state is terminal: `main` is never at its return and every
reachable state has a successor. -/
theorem blink_alternates_forever :
    (∀ m : Mem,
      (∀ k, k < 3 → ∃ t, stepN k (init m) = some t ∧ t.pin = none ∧
        t.mem GPIO_SET0 = m GPIO_SET0 ∧ t.mem GPIO_CLR0 = m GPIO_CLR0) ∧
      stepN 3 (init m)
        = some { pc := Loc.sleep_high 0,
                 mem := or_assign (or_assign m GPIO_FSEL1 (0x01 <<< 18)) GPIO_SET0 0x0f,
                 nops := 0, pin := some Pin.HIGH }) ∧
    (∀ s t, Reachable s → s.pin = some Pin.HIGH → step s = some t →
      (t.pin = some Pin.HIGH ∧ t.mem = s.mem) ∨
      (s.pc = Loc.clear_pins ∧ t.pin = some Pin.LOW ∧
        t.mem = or_assign s.mem GPIO_CLR0 0x0f)) ∧
    (∀ s t, Reachable s → s.pin = some Pin.LOW → step s = some t →
      (t.pin = some Pin.LOW ∧ t.mem = s.mem) ∨
      (s.pc = Loc.set_pins ∧ t.pin = some Pin.HIGH ∧
        t.mem = or_assign s.mem GPIO_SET0 0x0f)) ∧
    (delay_bound 250 = 1500000 ∧ ∀ (m : Mem) (n : Nat),
      (∀ k, k ≤ 1500001 →
        ∃ t, stepN k { pc := Loc.sleep_high 0, mem := m, nops := n, pin := some Pin.HIGH }
          = some t ∧ t.pin = some Pin.HIGH ∧ t.mem = m) ∧
      stepN 1500002 { pc := Loc.sleep_high 0, mem := m, nops := n, pin := some Pin.HIGH }
        = some { pc := Loc.sleep_low 0, mem := or_assign m GPIO_CLR0 0x0f,
                 nops := n + 1500000, pin := some Pin.LOW }) ∧
    (∀ (m : Mem) (n : Nat),
      (∀ k, k ≤ 1500002 →
        ∃ t, stepN k { pc := Loc.sleep_low 0, mem := m, nops := n, pin := some Pin.LOW }
          = some t ∧ t.pin = some Pin.LOW ∧ t.mem = m) ∧
      stepN 1500003 { pc := Loc.sleep_low 0, mem := m, nops := n, pin := some Pin.LOW }
        = some { pc := Loc.sleep_high 0, mem := or_assign m GPIO_SET0 0x0f,
                 nops := n + 1500000, pin := some Pin.HIGH }) ∧
    (∀ s, Reachable s → s.pin = some Pin.HIGH →
      ∃ k u, k ≤ 1500002 ∧ stepN k s = some u ∧ u.pin = some Pin.LOW ∧
        u.mem = or_assign s.mem GPIO_CLR0 0x0f) ∧
    (∀ s, Reachable s → s.pin = some Pin.LOW →
      ∃ k u, k ≤ 1500003 ∧ stepN k s = some u ∧ u.pin = some Pin.HIGH ∧
        u.mem = or_assign s.mem GPIO_SET0 0x0f) ∧
    (∀ s, Reachable s → s.pc ≠ Loc.returned ∧ ∃ t, step s = some t) := by
  refine ⟨?_, ?_, ?_, ⟨delay_bound_250, ?_⟩, ?_, ?_, ?_, ?_⟩
  · intro m
    refine ⟨?_, rfl⟩
    intro k hk
    have hcases : k = 0 ∨ k = 1 ∨ k = 2 := by omega
    rcases hcases with rfl | rfl | rfl
    · exact ⟨_, rfl, rfl, rfl, rfl⟩
    · refine ⟨_, rfl, rfl, ?_, ?_⟩
      · exact or_assign_other m GPIO_FSEL1 (0x01 <<< 18) GPIO_SET0 (Ne.symm FSEL1_ne_SET0)
      · exact or_assign_other m GPIO_FSEL1 (0x01 <<< 18) GPIO_CLR0 (Ne.symm FSEL1_ne_CLR0)
    · refine ⟨_, rfl, rfl, ?_, ?_⟩
      · exact or_assign_other m GPIO_FSEL1 (0x01 <<< 18) GPIO_SET0 (Ne.symm FSEL1_ne_SET0)
      · exact or_assign_other m GPIO_FSEL1 (0x01 <<< 18) GPIO_CLR0 (Ne.symm FSEL1_ne_CLR0)
  · intro s t hr hp h
    exact high_step s t (Reachable_PinAt s hr) hp h
  · intro s t hr hp h
    exact low_step s t (Reachable_PinAt s hr) hp h
  · intro m n
    exact ⟨fun k hk => high_phase_holds m n k hk, high_phase m n _⟩
  · intro m n
    exact ⟨fun k hk => low_phase_holds m n k hk, low_phase m n _⟩
  · intro s hr hp
    exact high_reaches_low s (Reachable_PinAt s hr) hp
  · intro s hr hp
    exact low_reaches_high s (Reachable_PinAt s hr) hp
  · intro s hr
    exact PinAt_progress s (Reachable_PinAt s hr)

end Blinky
